import Mathlib

/-!
Verification development for the peanosynth repository (src/lib.rs and
src/main.rs): a shallow embedding of the project/waveform data model, its
JSON persistence via serde, the signal-synthesis fold, the real-time
output callback, and the entry-point project selection, together with
theorems settling the specification claims.
-/

/-! ## JSON values

A model of the serde_json value space as far as this program can observe
it: integer-literal numbers, non-integer numbers, strings, booleans,
null, arrays, and objects (ordered field lists, duplicates possible). -/

inductive Json where
  | int (n : ℤ)
  | float (q : ℚ)
  | str (s : String)
  | bool (b : Bool)
  | null
  | arr (xs : List Json)
  | obj (fields : List (String × Json))

/-- Deserializing a `usize` from a JSON value: only a non-negative
integer literal succeeds (serde rejects floats, negatives and
non-numbers for unsigned integer fields). -/
def decodeUsize : Json → Option ℕ
  | .int n => if 0 ≤ n then some n.toNat else none
  | _ => none

namespace LibRs

/-! ## Data model of src/lib.rs -/

/-- `struct Parameters { #[serde(default)] time: usize }` from lib.rs. -/
structure Parameters where
  time : ℕ
deriving DecidableEq, Repr

/-- `impl Default for Parameters` from lib.rs: `Parameters { time: 1 }`. -/
def Parameters.default : Parameters := ⟨1⟩

/-- `enum Waveform` from lib.rs: five newtype variants each carrying a
`Parameters` record. -/
inductive Waveform where
  | Sine (p : Parameters)
  | Saw (p : Parameters)
  | Square (p : Parameters)
  | Noise (p : Parameters)
  | NoiseSimplex (p : Parameters)
deriving DecidableEq, Repr

/-- `struct Project { time: usize, sequence: Vec<Waveform> }` from lib.rs. -/
structure Project where
  time : ℕ
  sequence : List Waveform
deriving DecidableEq, Repr

/-! ## serde decoding of the lib.rs types

The derived `Deserialize` impls, specialized to the serde_json data
format.  Struct fields are visited in document order; a duplicate of a
known field is an error; unknown fields are skipped.  A field marked
`#[serde(default)]` that is absent takes the default of the FIELD TYPE
(for `usize` that is 0).  serde_json also deserializes structs from JSON
arrays, reading the fields in declaration order, erroring on extra
elements and (absent a default) on missing ones. -/

/-- Field loop of the derived `Deserialize` for `Parameters`: walk the
object entries, recording the `time` field (duplicate is an error,
ill-typed value is an error, unknown fields are skipped); an absent
`time` takes `usize::default()`, which is 0. -/
def decodeParamsFields : List (String × Json) → Option ℕ → Option Parameters
  | [], t? => some ⟨t?.getD 0⟩
  | (k, v) :: rest, t? =>
    if k = "time" then
      match t? with
      | some _ => none
      | none =>
        match decodeUsize v with
        | some t => decodeParamsFields rest (some t)
        | none => none
    else decodeParamsFields rest t?

/-- Deserializing `Parameters` from a JSON value: an object is decoded
via the field loop; serde_json additionally accepts a JSON array holding
the fields in declaration order (zero or one element here, the absent
`time` again defaulting to 0); anything else is an error. -/
def decodeParameters : Json → Option Parameters
  | .obj fs => decodeParamsFields fs none
  | .arr [] => some ⟨0⟩
  | .arr [v] =>
    match decodeUsize v with
    | some t => some ⟨t⟩
    | none => none
  | _ => none

/-- The five externally-tagged variant names of `Waveform`. -/
def waveformKinds : List String := ["Sine", "Saw", "Square", "Noise", "NoiseSimplex"]

/-- Variant dispatch of the derived `Deserialize` for `Waveform`: map a
recognized variant name and decoded content to the value. -/
def mkWaveform (k : String) (p : Parameters) : Option Waveform :=
  if k = "Sine" then some (.Sine p)
  else if k = "Saw" then some (.Saw p)
  else if k = "Square" then some (.Square p)
  else if k = "Noise" then some (.Noise p)
  else if k = "NoiseSimplex" then some (.NoiseSimplex p)
  else none

/-- Deserializing the externally tagged `Waveform`: serde_json requires a
map with exactly one entry whose key is the variant name and whose value
deserializes as the `Parameters` content; an unknown variant name, a
map of another arity, or any other JSON shape is an error (a bare string
names only unit variants, and these variants are newtype variants). -/
def decodeWaveform : Json → Option Waveform
  | .obj [(k, v)] =>
    match decodeParameters v with
    | some p => mkWaveform k p
    | none => none
  | _ => none

/-- Deserializing `Vec<Waveform>`: each element in order; the first
failing element fails the whole vector. -/
def decodeWaveList : List Json → Option (List Waveform)
  | [] => some []
  | x :: xs =>
    match decodeWaveform x, decodeWaveList xs with
    | some w, some ws => some (w :: ws)
    | _, _ => none

/-- Field loop of the derived `Deserialize` for `Project`: both `time`
and `sequence` are required (no default), duplicates are errors, unknown
fields are skipped. -/
def decodeProjectFields :
    List (String × Json) → Option ℕ → Option (List Waveform) → Option Project
  | [], t?, s? =>
    match t?, s? with
    | some t, some s => some ⟨t, s⟩
    | _, _ => none
  | (k, v) :: rest, t?, s? =>
    if k = "time" then
      match t? with
      | some _ => none
      | none =>
        match decodeUsize v with
        | some t => decodeProjectFields rest (some t) s?
        | none => none
    else if k = "sequence" then
      match s? with
      | some _ => none
      | none =>
        match v with
        | .arr xs =>
          match decodeWaveList xs with
          | some ws => decodeProjectFields rest t? (some ws)
          | none => none
        | _ => none
    else decodeProjectFields rest t? s?

/-- Deserializing `Project` (`serde_json::from_str::<Project>`): an
object is decoded via the field loop; serde_json additionally accepts a
two-element JSON array holding the fields in declaration order; anything
else is an error. -/
def decodeProject : Json → Option Project
  | .obj fs => decodeProjectFields fs none none
  | .arr [tj, sj] =>
    match decodeUsize tj, sj with
    | some t, .arr xs =>
      match decodeWaveList xs with
      | some ws => some ⟨t, ws⟩
      | none => none
    | _, _ => none
  | _ => none

/-! ## serde encoding of the lib.rs types -/

/-- The derived `Serialize` for `Parameters`. -/
def encodeParameters (p : Parameters) : Json := .obj [("time", .int p.time)]

/-- The derived `Serialize` for `Waveform` (externally tagged). -/
def encodeWaveform : Waveform → Json
  | .Sine p => .obj [("Sine", encodeParameters p)]
  | .Saw p => .obj [("Saw", encodeParameters p)]
  | .Square p => .obj [("Square", encodeParameters p)]
  | .Noise p => .obj [("Noise", encodeParameters p)]
  | .NoiseSimplex p => .obj [("NoiseSimplex", encodeParameters p)]

/-- The derived `Serialize` for `Project`, fields in declaration order. -/
def encodeProject (pr : Project) : Json :=
  .obj [("time", .int pr.time), ("sequence", .arr (pr.sequence.map encodeWaveform))]

end LibRs

namespace MainRs

/-! ## Data model of src/main.rs

main.rs declares its own `Project` and `Waveform`; this `Waveform` is a
plain enum with no payload. -/

/-- `enum Waveform` from main.rs: five unit variants. -/
inductive Waveform where
  | Sine
  | Saw
  | Square
  | Noise
  | NoiseSimplex
deriving DecidableEq, Repr

/-- `struct Project { time: usize, sequence: Vec<Waveform> }` from main.rs. -/
structure Project where
  time : ℕ
  sequence : List Waveform
deriving DecidableEq, Repr

/-- Modelled from the spec: the embedded `default_project.json` document
decoded by `Project::default()` is not under src/ (only the
`include_str!` reference is); per the spec the embedded default has a
duration of 1 second, and its shape follows the documented project
schema.  The sequence contents are not fixed by the spec; one `Sine`
entry stands for them. -/
def Project.defaultProject : Project := ⟨1, [.Sine]⟩

/-- Oscillator sample functions of the dasp signal combinators used by
`signals_from_sequence`.  dasp is third-party code outside this
repository, so each combinator is carried abstractly as a pure sample
function: the pitched generators (`sine`, `saw`, `square`,
`noise_simplex`) map a stream sample rate, a carrier frequency and a
sample index to a sample value; `noise` maps a seed and a sample index
to a sample value.  Sample values are rationals standing for the f64
samples of the code. -/
structure Oscillators where
  sine : ℕ → ℚ → ℕ → ℚ
  saw : ℕ → ℚ → ℕ → ℚ
  square : ℕ → ℚ → ℕ → ℚ
  noiseSimplex : ℕ → ℚ → ℕ → ℚ
  noise : ℤ → ℕ → ℚ

/-- One arm of the match inside `signals_from_sequence`: the segment
collected for one `Waveform` entry, `take(time_scaled)` samples of the
chosen combinator.  The pitched arms run at the fixed 440 Hz carrier of
`const_hz(440.0)`; the `Noise` arm is `signal::noise(0)`, seeded with
the constant 0 and fed no rate or carrier. -/
def segment (osc : Oscillators) (R : ℕ) (time_scaled : ℕ) : Waveform → List ℚ
  | .Sine => (List.range time_scaled).map (osc.sine R 440)
  | .Saw => (List.range time_scaled).map (osc.saw R 440)
  | .Square => (List.range time_scaled).map (osc.square R 440)
  | .NoiseSimplex => (List.range time_scaled).map (osc.noiseSimplex R 440)
  | .Noise => (List.range time_scaled).map (osc.noise 0)

/-- `SynthApp::signals_from_sequence` from main.rs: with
`time_scaled = sample_rate * time`, fold over the project sequence
starting from the empty vector, appending the segment of each entry. -/
def signals_from_sequence (osc : Oscillators) (R : ℕ) (p : Project) : List ℚ :=
  let time_scaled := R * p.time
  p.sequence.foldl (fun acc w => acc ++ segment osc R time_scaled w) []

/-- The synth iterator built inside `SynthApp::run`: every sample of
`signals_from_sequence` narrowed to f32 and scaled by the fixed
amplitude factor 0.2. -/
def synth (osc : Oscillators) (R : ℕ) (p : Project) : List ℚ :=
  (signals_from_sequence osc R p).map (fun s => s * (1 / 5))

/-- `complete_tx.try_send(()).ok()` on the `mpsc::sync_channel(1)`
completion channel, with the channel state the number of queued
messages: a send on a free slot queues the message, a send on a full
slot returns an error that the code discards; neither blocks. -/
def trySend (c : ℕ) : ℕ := if c < 1 then c + 1 else c

/-- `write_data` from main.rs.  The output buffer of length `n` is
walked in chunks of `channels` (`output.chunks_mut(channels)`); for each
frame the next sample is pulled from the signal iterator, an exhausted
iterator yielding a completion try_send and the value 0.0; the value,
converted by `cpal::Sample::from::<f32>` (carried abstractly as `conv`),
is written to every slot of the frame.  The state `(c, sig)` is the
completion-channel occupancy and the remaining samples; the result is
the written buffer contents and the final state.  `channels = 0` cannot
occur (cpal streams have at least one channel; `chunks_mut(0)` would
panic) and is modelled as an empty walk. -/
def write_data (conv : ℚ → ℚ) (channels : ℕ) (n : ℕ) (c : ℕ) (sig : List ℚ) :
    List ℚ × ℕ × List ℚ :=
  if channels = 0 then ([], c, sig)
  else if n = 0 then ([], c, sig)
  else
    let k := min channels n
    match sig with
    | [] =>
      let r := write_data conv channels (n - k) (trySend c) []
      (List.replicate k (conv 0) ++ r.1, r.2.1, r.2.2)
    | s :: tl =>
      let r := write_data conv channels (n - k) c tl
      (List.replicate k (conv s) ++ r.1, r.2.1, r.2.2)
termination_by n
decreasing_by all_goals omega

/-- Number of frames `chunks_mut(channels)` yields on a buffer of
length `n`: the length of the chunk list, `⌈n / channels⌉`. -/
def numFrames (channels n : ℕ) : ℕ := (n + channels - 1) / channels

/-- The buffer contents the callback contract of the spec describes,
stated from its words: one frame per requested chunk (the last chunk
possibly short), every slot of frame `i` holding the same value — the
`i`-th pending sample while the source lasts, and the silence value 0
once it is exhausted (`getD` yields the default 0 past the end). -/
def framePattern (conv : ℚ → ℚ) (channels n : ℕ) (sig : List ℚ) : List ℚ :=
  ((List.range (numFrames channels n)).map
    (fun i => List.replicate (min channels (n - i * channels))
      (conv (sig.getD i 0)))).flatten

/-- The sequence of output-callback invocations within one
`SynthApp::run` call: the audio thread hands `write_data` a fresh buffer
per invocation (`bufs` lists the buffer lengths), threading the
completion-channel state and the remaining samples; the caller is
blocked in `complete_rx.recv()` throughout, so no message is consumed
while the callbacks run. -/
def playCallbacks (conv : ℚ → ℚ) (channels : ℕ) (bufs : List ℕ)
    (st : ℕ × List ℚ) : ℕ × List ℚ :=
  bufs.foldl (fun st n =>
    let r := write_data conv channels n st.1 st.2
    (r.2.1, r.2.2)) st

/-- Errors a `SynthApp::run` call can surface to `play()`:
`build_output_stream`, `stream.play()` and `stream.pause()` each
propagate with `?`. -/
inductive PlayError where
  | buildFailed
  | playFailed
  | pauseFailed
deriving DecidableEq, Repr

/-- UI states of the interaction state machine. -/
inductive UiState where
  | Idle
  | Playing
deriving DecidableEq, Repr

/-- What becomes of the process after the Play-click arm of
`SynthApp::update` runs. -/
inductive UpdateOutcome where
  | continues (s : UiState)
  | panics
deriving DecidableEq, Repr

/-- The Play-click arm of `SynthApp::update` from main.rs:
`self.play().unwrap()` — a returned error is unwrapped, panicking the
process; on success update returns and the UI is idle again. -/
def update_on_play : Except PlayError Unit → UpdateOutcome
  | .ok _ => .continues .Idle
  | .error _ => .panics

/-- The stream error callback `err_fn` from `SynthApp::run`:
`|err| eprintln!(..)` — a runtime stream error is only logged; the log
line is returned here and nothing else happens. -/
def err_fn (err : String) : List String :=
  ["an error occurred on stream: " ++ err]

/-- Project selection performed by `fn main` from main.rs: `main` builds
`SynthApp::new()`, which always uses `Project::default()`; the
command-line arguments are never read and the file loader (the
`TryFrom<String>` impl of lib.rs, carried here as `loadProject`) is
never invoked. -/
def mainSelectProject (args : List String)
    (loadProject : String → Option Project) : Project :=
  Project.defaultProject

end MainRs

/-- A JSON value that is a non-negative integer literal (the values a
`usize` field accepts). -/
def isNatInt : Json → Bool
  | .int n => decide (0 ≤ n)
  | _ => false

namespace LibRs

/-! ## The documented wire format, stated from the words of the spec

These predicates follow the specification text (for comparison against
the decoder built from the source): a project document is an object with
an integer `time` field and an array `sequence` field; each sequence
element is an object with exactly one key naming the waveform kind,
mapped to an object with an optional integer `time` field. -/

/-- A Parameters value in the documented format: an object whose `time`
field, when present, appears once and holds a non-negative integer. -/
def specParamsObj : Json → Bool
  | .obj fs =>
    decide (fs.countP (fun kv => decide (kv.1 = "time")) ≤ 1) &&
      fs.all (fun kv => !(decide (kv.1 = "time")) || isNatInt kv.2)
  | _ => false

/-- A sequence element in the documented format: an object with exactly
one key naming a waveform kind, mapped to a Parameters object. -/
def specElemShape : Json → Bool
  | .obj [(k, v)] => decide (k ∈ waveformKinds) && specParamsObj v
  | _ => false

/-- The shapes a `Parameters` content actually decodes from: the
documented object form, or the serde_json array form holding the fields
in declaration order. -/
def paramsShapeExt : Json → Bool
  | .obj fs => specParamsObj (.obj fs)
  | .arr [] => true
  | .arr [v] => isNatInt v
  | _ => false

/-- The sequence-element shapes that actually decode: a single-key map
naming a waveform kind whose value has a decodable `Parameters` shape. -/
def elemShapeExt : Json → Bool
  | .obj [(k, v)] => decide (k ∈ waveformKinds) && paramsShapeExt v
  | _ => false

/-- A JSON array every element of which has the documented sequence
element shape. -/
def isElemArr : Json → Bool
  | .arr xs => xs.all specElemShape
  | _ => false

/-- A project document in the documented wire format: an object holding
exactly an integer `time` field and a `sequence` array of documented
elements (in either field order). -/
def specWireFormat : Json → Bool
  | .obj [(k1, v1), (k2, v2)] =>
    (decide (k1 = "time") && decide (k2 = "sequence") &&
        isNatInt v1 && isElemArr v2) ||
      (decide (k1 = "sequence") && decide (k2 = "time") &&
        isNatInt v2 && isElemArr v1)
  | _ => false

/-- Modelled from the spec: the embedded `default_project.json` document
included by lib.rs is not under src/ (only the `include_str!` reference
is); per the spec it has duration 1 second and follows the documented
schema; one `Sine` entry with the documented default stands for the
sequence contents. -/
def defaultProjectDoc : Json :=
  .obj [("time", .int 1),
        ("sequence", .arr [.obj [("Sine", .obj [("time", .int 1)])]])]

/-- The Project value the modelled embedded default document decodes to. -/
def defaultProject : Project := ⟨1, [.Sine ⟨1⟩]⟩

end LibRs

/-- A concrete oscillator instance used to instantiate witnesses: every
combinator returns the sample index as a rational. -/
def MainRs.oscIndex : MainRs.Oscillators :=
  ⟨fun _ _ i => i, fun _ _ i => i, fun _ _ i => i, fun _ _ i => i, fun _ i => i⟩

/-! ## Helper lemmas -/

/-- Folding append of mapped segments over a list equals the initial
accumulator followed by the concatenation of all segments. -/
theorem foldl_append_join {α β : Type} (f : α → List β) :
    ∀ (l : List α) (init : List β),
      l.foldl (fun acc w => acc ++ f w) init = init ++ (l.map f).flatten := by
  intro l
  induction l with
  | nil => intro init; simp
  | cons a t ih => intro init; simp [ih]

/-- The concatenation of equal-length segments has length
`count * segment length`. -/
theorem join_map_length_const {α β : Type} (f : α → List β) (N : ℕ)
    (l : List α) (h : ∀ a, (f a).length = N) :
    ((l.map f).flatten).length = l.length * N := by
  induction l with
  | nil => simp
  | cons a t ih => simp [h a, ih]; ring

/-- C1 (counterexample): started with one command-line argument, the
entry point still holds the embedded default Project — the loader is
never consulted and the held Project does not depend on the argument,
contradicting the claim at the concrete argument list
`["project.json"]` and a loader producing a different Project. -/
theorem mainSelect_ignores_args_counterexample :
    MainRs.mainSelectProject ["project.json"] (fun _ => some ⟨42, []⟩) =
        MainRs.Project.defaultProject ∧
      MainRs.mainSelectProject ["project.json"] (fun _ => some ⟨42, []⟩) =
        MainRs.mainSelectProject [] (fun _ => some ⟨42, []⟩) ∧
      MainRs.Project.defaultProject ≠ ⟨42, []⟩ :=
  ⟨rfl, rfl, by decide⟩

/-- C1 (amended): the entry point ignores the command-line arguments
entirely: whatever the arguments and whatever the file loader would
return, the application holds the embedded default Project. -/
theorem mainSelect_constant_default (args : List String)
    (load : String → Option MainRs.Project) :
    MainRs.mainSelectProject args load = MainRs.Project.defaultProject := rfl

/-- C2 (code bug): a JSON object lacking a `time` field decodes to a
`Parameters` with `time = 0`, not the documented default 1 — the
field-level serde default attribute takes the default of `usize`,
while the handwritten `Default` impl of `Parameters` (time = 1) is not
consulted during decoding. -/
theorem parameters_missing_time_decodes_to_zero :
    LibRs.decodeParameters (Json.obj []) = some ⟨0⟩ ∧
      LibRs.decodeWaveform (Json.obj [("Sine", Json.obj [])]) =
        some (.Sine ⟨0⟩) ∧
      LibRs.Parameters.mk 0 ≠ LibRs.Parameters.default :=
  ⟨rfl, rfl, by decide⟩

/-- C3 (counterexample): a `play()` invocation returning an error does
not leave the process running in the Idle state — the update handler
unwraps the error, panicking the process, at the concrete error
`buildFailed` (a rejected stream construction). -/
theorem update_panics_on_play_error_counterexample :
    MainRs.update_on_play (.error MainRs.PlayError.buildFailed) =
        MainRs.UpdateOutcome.panics ∧
      MainRs.UpdateOutcome.panics ≠
        MainRs.UpdateOutcome.continues MainRs.UiState.Idle :=
  ⟨rfl, by decide⟩

/-- C3 (amended): every error returned by `play()` (stream
construction, start, or stop failure) is unwrapped by the update
handler and panics the process; a successful `play()` returns control
with the UI idle again; a runtime stream error reported to the error
callback is only logged and terminates nothing. -/
theorem update_play_error_behavior :
    (∀ e : MainRs.PlayError,
        MainRs.update_on_play (.error e) = MainRs.UpdateOutcome.panics) ∧
      MainRs.update_on_play (.ok ()) =
        MainRs.UpdateOutcome.continues MainRs.UiState.Idle ∧
      ∀ s, MainRs.err_fn s = ["an error occurred on stream: " ++ s] :=
  ⟨fun _ => rfl, rfl, fun _ => rfl⟩

/-- C4: for every oscillator implementation, stream sample rate `R` and
Project, the synthesis fold concatenates, in sequence order, one
segment per Waveform entry; every segment (pitched ones at the fixed
440 Hz carrier baked into `segment`) holds exactly `R * time` samples,
so the whole stream holds `entries * (R * time)` samples. -/
theorem signals_from_sequence_segments (osc : MainRs.Oscillators) (R : ℕ)
    (p : MainRs.Project) :
    MainRs.signals_from_sequence osc R p =
        (p.sequence.map (MainRs.segment osc R (R * p.time))).flatten ∧
      (∀ w, (MainRs.segment osc R (R * p.time) w).length = R * p.time) ∧
      (MainRs.signals_from_sequence osc R p).length =
        p.sequence.length * (R * p.time) := by
  have hseg : ∀ w, (MainRs.segment osc R (R * p.time) w).length = R * p.time := by
    intro w; cases w <;> simp [MainRs.segment]
  have hjoin : MainRs.signals_from_sequence osc R p =
      (p.sequence.map (MainRs.segment osc R (R * p.time))).flatten := by
    simpa [MainRs.signals_from_sequence] using
      foldl_append_join (MainRs.segment osc R (R * p.time)) p.sequence []
  refine ⟨hjoin, hseg, ?_⟩
  rw [hjoin]
  exact join_map_length_const _ _ _ hseg

/-- The non-blocking completion send is saturation at one queued
message. -/
theorem trySend_eq_max (c : ℕ) : MainRs.trySend c = max c 1 := by
  unfold MainRs.trySend; split <;> omega

/-- Indexing with default into the tail shifts the index by one. -/
theorem getD_succ_tail (sig : List ℚ) (i : ℕ) :
    sig.getD (i + 1) 0 = sig.tail.getD i 0 := by
  cases sig <;> simp [List.getD]

/-- An empty buffer yields no frames. -/
theorem numFrames_zero (ch : ℕ) : MainRs.numFrames ch 0 = 0 := by
  unfold MainRs.numFrames
  rcases Nat.eq_zero_or_pos ch with h | h
  · subst h; rfl
  · exact Nat.div_eq_of_lt (by omega)

/-- Chopping one frame off a non-empty buffer: the frame count of the
rest is one less. -/
theorem numFrames_rec (ch n : ℕ) (hc : 0 < ch) (hn : 0 < n) :
    MainRs.numFrames ch n = MainRs.numFrames ch (n - min ch n) + 1 := by
  unfold MainRs.numFrames
  rcases le_or_lt n ch with h | h
  · have h1 : n - min ch n = 0 := by omega
    rw [h1]
    have e2 : (0 + ch - 1) / ch = 0 := Nat.div_eq_of_lt (by omega)
    rw [e2]
    exact Nat.div_eq_of_lt_le (by omega) (by omega)
  · have h1 : min ch n = ch := by omega
    rw [h1]
    have h2 : n + ch - 1 = (n - ch + ch - 1) + ch := by omega
    rw [h2, Nat.add_div_right _ hc]

/-- A non-empty buffer yields at least one frame. -/
theorem numFrames_pos (ch n : ℕ) (hc : 0 < ch) (hn : 0 < n) :
    0 < MainRs.numFrames ch n := by
  rw [numFrames_rec ch n hc hn]; omega

/-- Unrolling the documented frame pattern by its first frame. -/
theorem framePattern_rec (conv : ℚ → ℚ) (ch n : ℕ) (sig : List ℚ)
    (hc : 0 < ch) (hn : 0 < n) :
    MainRs.framePattern conv ch n sig =
      List.replicate (min ch n) (conv (sig.getD 0 0)) ++
        MainRs.framePattern conv ch (n - min ch n) sig.tail := by
  unfold MainRs.framePattern
  rw [numFrames_rec ch n hc hn, List.range_succ_eq_map]
  simp only [List.map_cons, List.map_map, List.flatten_cons]
  congr 1
  · simp
  · congr 1
    apply List.map_congr_left
    intro i _
    simp only [Function.comp_apply]
    have hmul : (i + 1) * ch = i * ch + ch := by ring
    have h1 : n - (i + 1) * ch = n - min ch n - i * ch := by omega
    rw [Nat.succ_eq_add_one, h1, getD_succ_tail]

/-- Every slot of the requested buffer is written: the output of
`write_data` has exactly the requested length. -/
theorem write_data_length (conv : ℚ → ℚ) (ch : ℕ) (hc : 0 < ch) :
    ∀ n c sig, ((MainRs.write_data conv ch n c sig).1).length = n := by
  intro n
  induction n using Nat.strong_induction_on with
  | _ n ih =>
    intro c sig
    unfold MainRs.write_data
    rw [if_neg (by omega : ¬ ch = 0)]
    by_cases hn : n = 0
    · rw [if_pos hn]; simp [hn]
    · rw [if_neg hn]
      cases sig with
      | nil =>
        have ihl := ih (n - min ch n) (by omega) (MainRs.trySend c) []
        simp only [List.length_append, List.length_replicate, ihl]
        omega
      | cons s tl =>
        have ihl := ih (n - min ch n) (by omega) c tl
        simp only [List.length_append, List.length_replicate, ihl]
        omega

/-- The buffer `write_data` writes is exactly the documented frame
pattern: per frame one pulled sample (or silence 0 after exhaustion)
replicated over every channel slot. -/
theorem write_data_fst (conv : ℚ → ℚ) (ch : ℕ) (hc : 0 < ch) :
    ∀ n c sig, (MainRs.write_data conv ch n c sig).1 =
      MainRs.framePattern conv ch n sig := by
  intro n
  induction n using Nat.strong_induction_on with
  | _ n ih =>
    intro c sig
    unfold MainRs.write_data
    rw [if_neg (by omega : ¬ ch = 0)]
    by_cases hn : n = 0
    · rw [if_pos hn]
      subst hn
      simp [MainRs.framePattern, numFrames_zero]
    · rw [if_neg hn]
      rw [framePattern_rec conv ch n sig hc (by omega)]
      cases sig with
      | nil =>
        have ihl := ih (n - min ch n) (by omega) (MainRs.trySend c) []
        simp [ihl, List.getD_nil]
      | cons s tl =>
        have ihl := ih (n - min ch n) (by omega) c tl
        simp [ihl, List.getD_cons_zero]

/-- On an exhausted source, `write_data` emits pure silence over the
whole buffer and leaves the completion channel saturated. -/
theorem write_data_nil (conv : ℚ → ℚ) (ch : ℕ) (hc : 0 < ch) :
    ∀ n c, MainRs.write_data conv ch n c [] =
      (List.replicate n (conv 0), (if n = 0 then c else max c 1), []) := by
  intro n
  induction n using Nat.strong_induction_on with
  | _ n ih =>
    intro c
    unfold MainRs.write_data
    rw [if_neg (by omega : ¬ ch = 0)]
    by_cases hn : n = 0
    · rw [if_pos hn]; simp [hn]
    · rw [if_neg hn]
      have ihe := ih (n - min ch n) (by omega) (MainRs.trySend c)
      have hrep : List.replicate (min ch n) (conv 0) ++
          List.replicate (n - min ch n) (conv 0) =
            List.replicate n (conv 0) := by
        rw [← List.replicate_add]; congr 1; omega
      simp only [ihe, Prod.mk.injEq]
      refine ⟨hrep, ?_, trivial⟩
      rw [trySend_eq_max, if_neg hn]
      split <;> omega

/-- The completion-channel occupancy `write_data` leaves never exceeds
one when it never exceeded one before. -/
theorem write_data_channel_le_one (conv : ℚ → ℚ) (ch : ℕ) :
    ∀ n c sig, c ≤ 1 → (MainRs.write_data conv ch n c sig).2.1 ≤ 1 := by
  intro n
  induction n using Nat.strong_induction_on with
  | _ n ih =>
    intro c sig hc1
    unfold MainRs.write_data
    by_cases hch : ch = 0
    · rw [if_pos hch]; exact hc1
    · rw [if_neg hch]
      by_cases hn : n = 0
      · rw [if_pos hn]; exact hc1
      · rw [if_neg hn]
        cases sig with
        | nil =>
          exact ih (n - min ch n) (by omega) (MainRs.trySend c) []
            (by rw [trySend_eq_max]; omega)
        | cons s tl =>
          exact ih (n - min ch n) (by omega) c tl hc1

/-- C6: every requested slot of the output buffer is written — the
output has exactly the requested length — and it equals the documented
frame pattern: frame by frame, every channel slot of a frame holds the
same value, the pending samples are pulled in order while the source
lasts, and every frame past exhaustion is filled from the silence
sample value 0 (the third conjunct: past the end the pulled value is
the default 0). -/
theorem write_data_fills_frames (conv : ℚ → ℚ) (ch n c : ℕ)
    (sig : List ℚ) (hc : 0 < ch) :
    ((MainRs.write_data conv ch n c sig).1).length = n ∧
      (MainRs.write_data conv ch n c sig).1 =
        MainRs.framePattern conv ch n sig ∧
      ∀ i, sig.length ≤ i → sig.getD i 0 = 0 :=
  ⟨write_data_length conv ch hc n c sig,
   write_data_fst conv ch hc n c sig,
   fun _ hi => List.getD_eq_default _ _ hi⟩

/-- C6 witness: a concrete two-channel callback asked for five slots
with a single pending sample. -/
theorem write_data_fills_frames_witness :
    ((MainRs.write_data id 2 5 0 [3]).1).length = 5 ∧
      (MainRs.write_data id 2 5 0 [3]).1 =
        MainRs.framePattern id 2 5 [3] ∧
      ∀ i, ([(3 : ℚ)]).length ≤ i → ([(3 : ℚ)]).getD i 0 = 0 :=
  write_data_fills_frames id 2 5 0 [3] (by decide)

/-- C7: across any run of callback invocations of one `play()` call
(arbitrary buffer lengths, starting from a free completion channel),
the completion channel never holds more than one message: with no
receive happening while the caller blocks, at most one send ever
succeeds, and every further send attempt is dropped by the non-blocking
`try_send` whose error the callback discards. -/
theorem completion_signal_at_most_once (conv : ℚ → ℚ) (ch : ℕ)
    (bufs : List ℕ) (sig : List ℚ) :
    (MainRs.playCallbacks conv ch bufs (0, sig)).1 ≤ 1 := by
  have aux : ∀ (bs : List ℕ) (st : ℕ × List ℚ), st.1 ≤ 1 →
      (MainRs.playCallbacks conv ch bs st).1 ≤ 1 := by
    intro bs
    induction bs with
    | nil => intro st h; exact h
    | cons b rest ih =>
      intro st h
      exact ih _ (write_data_channel_le_one conv ch b st.1 st.2 h)
  exact aux bufs (0, sig) (by omega)

/-- C10: a Project whose `time` is 0 synthesizes zero samples whatever
its sequence holds, so the source is exhausted from the start: the
first callback invocation saturates the completion channel (the signal
fires) and writes nothing but the silence value over the whole
requested buffer. -/
theorem zero_time_plays_silence_immediately (osc : MainRs.Oscillators)
    (R : ℕ) (seq : List MainRs.Waveform) (conv : ℚ → ℚ) (ch n : ℕ)
    (hc : 0 < ch) (hn : 0 < n) :
    MainRs.signals_from_sequence osc R ⟨0, seq⟩ = [] ∧
      MainRs.synth osc R ⟨0, seq⟩ = [] ∧
      (MainRs.write_data conv ch n 0 []).2.1 = 1 ∧
      (MainRs.write_data conv ch n 0 []).1 = List.replicate n (conv 0) := by
  have hlen : (MainRs.signals_from_sequence osc R ⟨0, seq⟩).length = 0 := by
    rw [(signals_from_sequence_segments osc R ⟨0, seq⟩).2.2]
    simp
  have h1 : MainRs.signals_from_sequence osc R ⟨0, seq⟩ = [] :=
    List.length_eq_zero.mp hlen
  have hn0 : ¬ n = 0 := by omega
  refine ⟨h1, by simp [MainRs.synth, h1], ?_, ?_⟩
  · simp [write_data_nil conv ch hc n 0, hn0]
  · simp [write_data_nil conv ch hc n 0]

/-- C10 witness: a concrete project of two entries at duration 0,
played into a two-channel four-slot callback. -/
theorem zero_time_plays_silence_immediately_witness :
    MainRs.signals_from_sequence MainRs.oscIndex 44100 ⟨0, [.Sine, .Noise]⟩ = [] ∧
      MainRs.synth MainRs.oscIndex 44100 ⟨0, [.Sine, .Noise]⟩ = [] ∧
      (MainRs.write_data id 2 4 0 []).2.1 = 1 ∧
      (MainRs.write_data id 2 4 0 []).1 = List.replicate 4 (id 0) :=
  zero_time_plays_silence_immediately MainRs.oscIndex 44100 [.Sine, .Noise]
    id 2 4 (by decide) (by decide)

/-- C9: the `Noise` segment is the prefix of the pure noise generator
seeded with the constant 0 — it consults neither the sample rate nor
the 440 Hz carrier, so any two syntheses of the same requested length
produce the identical sample list (here: the segment is one fixed list,
equal across any two sample-rate contexts, and a whole-project
synthesis of a `Noise` entry yields exactly that list). -/
theorem noise_deterministic_seed_zero (osc : MainRs.Oscillators)
    (R R' N t : ℕ) :
    MainRs.segment osc R N .Noise = (List.range N).map (osc.noise 0) ∧
      MainRs.segment osc R N .Noise = MainRs.segment osc R' N .Noise ∧
      MainRs.signals_from_sequence osc R ⟨t, [.Noise]⟩ =
        (List.range (R * t)).map (osc.noise 0) := by
  refine ⟨rfl, rfl, ?_⟩
  simp [MainRs.signals_from_sequence, MainRs.segment]

/-! ## serde lemmas for the lib.rs decoder -/

/-- A `usize` deserialization succeeds exactly on the non-negative
integer literals. -/
theorem decodeUsize_isSome (v : Json) : (decodeUsize v).isSome = isNatInt v := by
  cases v with
  | int n =>
    show (if 0 ≤ n then some n.toNat else none).isSome = decide (0 ≤ n)
    split <;> simp_all
  | float q => rfl
  | str s => rfl
  | bool b => rfl
  | null => rfl
  | arr xs => rfl
  | obj fs => rfl

/-- A natural cast into the JSON integers deserializes back to itself. -/
theorem decodeUsize_natCast (t : ℕ) : decodeUsize (Json.int t) = some t := by
  simp [decodeUsize]

/-- The `Parameters` field loop succeeds exactly when the `time` field
appears at most as often as the accumulator still allows and every
`time` entry holds a non-negative integer. -/
theorem decodeParamsFields_isSome_eq (fs : List (String × Json)) :
    ∀ t? : Option ℕ, (LibRs.decodeParamsFields fs t?).isSome =
      (decide (fs.countP (fun kv => decide (kv.1 = "time")) ≤
          (if t?.isSome then 0 else 1)) &&
        fs.all (fun kv => !(decide (kv.1 = "time")) || isNatInt kv.2)) := by
  induction fs with
  | nil => intro t?; simp [LibRs.decodeParamsFields]
  | cons kv rest ih =>
    intro t?
    obtain ⟨k, v⟩ := kv
    by_cases hk : k = "time"
    · subst hk
      cases t? with
      | some t => simp [LibRs.decodeParamsFields, List.countP_cons]
      | none =>
        cases hdu : decodeUsize v with
        | none =>
          have hni : isNatInt v = false := by rw [← decodeUsize_isSome, hdu]; rfl
          simp [LibRs.decodeParamsFields, hdu, hni]
        | some t =>
          have hni : isNatInt v = true := by rw [← decodeUsize_isSome, hdu]; rfl
          have h1 : LibRs.decodeParamsFields (("time", v) :: rest) none =
              LibRs.decodeParamsFields rest (some t) := by
            simp [LibRs.decodeParamsFields, hdu]
          have h2 : (List.countP (fun kv => decide (kv.1 = "time"))
                (("time", v) :: rest) ≤ 1) ↔
              (List.countP (fun kv => decide (kv.1 = "time")) rest ≤ 0) := by
            simp [List.countP_cons]
            try omega
          rw [h1, ih (some t)]
          have h3 : (decide (List.countP (fun kv => decide (kv.1 = "time"))
                (("time", v) :: rest) ≤ 1) : Bool) =
              decide (List.countP (fun kv => decide (kv.1 = "time")) rest ≤ 0) :=
            decide_eq_decide.mpr h2
          simp [hni, h3]
    · have hor : (!decide (k = "time") || isNatInt v) = true := by simp [hk]
      simp [LibRs.decodeParamsFields, hk, List.countP_cons, ih t?, hor]

/-- `Parameters` deserialization succeeds exactly on the decodable
shapes (documented object form or serde_json array form). -/
theorem decodeParameters_isSome_eq (v : Json) :
    (LibRs.decodeParameters v).isSome = LibRs.paramsShapeExt v := by
  cases v with
  | obj fs =>
    show (LibRs.decodeParamsFields fs none).isSome = _
    rw [decodeParamsFields_isSome_eq fs none]
    rfl
  | arr xs =>
    cases xs with
    | nil => rfl
    | cons a t =>
      cases t with
      | nil =>
        show (LibRs.decodeParameters (.arr [a])).isSome = isNatInt a
        rw [← decodeUsize_isSome]
        cases hdu : decodeUsize a <;> simp [LibRs.decodeParameters, hdu]
      | cons b t2 => rfl
  | int n => rfl
  | float q => rfl
  | str s => rfl
  | bool b => rfl
  | null => rfl

/-- Variant dispatch succeeds exactly on the five variant names,
whatever the decoded content. -/
theorem mkWaveform_isSome (k : String) (p : LibRs.Parameters) :
    (LibRs.mkWaveform k p).isSome = decide (k ∈ LibRs.waveformKinds) := by
  unfold LibRs.mkWaveform LibRs.waveformKinds
  split_ifs with h1 h2 h3 h4 h5 <;> simp_all

/-- `Waveform` deserialization succeeds exactly on the decodable
sequence-element shapes. -/
theorem decodeWaveform_isSome_eq (e : Json) :
    (LibRs.decodeWaveform e).isSome = LibRs.elemShapeExt e := by
  cases e with
  | obj fs =>
    cases fs with
    | nil => rfl
    | cons kv rest =>
      cases rest with
      | nil =>
        obtain ⟨k, v⟩ := kv
        cases hdp : LibRs.decodeParameters v with
        | none =>
          have hsh : LibRs.paramsShapeExt v = false := by
            rw [← decodeParameters_isSome_eq, hdp]; rfl
          simp [LibRs.decodeWaveform, LibRs.elemShapeExt, hdp, hsh]
        | some p =>
          have hsh : LibRs.paramsShapeExt v = true := by
            rw [← decodeParameters_isSome_eq, hdp]; rfl
          simp [LibRs.decodeWaveform, LibRs.elemShapeExt, hdp, hsh,
            mkWaveform_isSome]
      | cons kv2 rest2 => rfl
  | int n => rfl
  | float q => rfl
  | str s => rfl
  | bool b => rfl
  | null => rfl
  | arr xs => rfl

/-- A documented sequence element also has a decodable shape. -/
theorem elemShapeExt_of_spec (e : Json) (h : LibRs.specElemShape e = true) :
    LibRs.elemShapeExt e = true := by
  unfold LibRs.specElemShape at h
  split at h
  · rename_i k v
    rw [Bool.and_eq_true] at h
    obtain ⟨hk, hv⟩ := h
    have hsh : LibRs.paramsShapeExt v = true := by
      cases v <;> simp_all [LibRs.specParamsObj, LibRs.paramsShapeExt]
    simp [LibRs.elemShapeExt, hk, hsh]
  · simp at h

/-- A waveform vector of elements of decodable shape deserializes. -/
theorem decodeWaveList_isSome_of_all (xs : List Json)
    (h : ∀ e ∈ xs, (LibRs.decodeWaveform e).isSome = true) :
    (LibRs.decodeWaveList xs).isSome = true := by
  induction xs with
  | nil => rfl
  | cons x t ih =>
    have hx := h x (by simp)
    obtain ⟨w, hw⟩ := Option.isSome_iff_exists.mp hx
    have ht := ih (fun e he => h e (by simp [he]))
    obtain ⟨ws, hws⟩ := Option.isSome_iff_exists.mp ht
    simp [LibRs.decodeWaveList, hw, hws]

/-- A waveform vector containing an undecodable element fails. -/
theorem decodeWaveList_none_of_mem (xs : List Json) (e : Json)
    (he : e ∈ xs) (h : LibRs.decodeWaveform e = none) :
    LibRs.decodeWaveList xs = none := by
  induction xs with
  | nil => simp at he
  | cons x t ih =>
    rcases List.mem_cons.mp he with heq | ht
    · subst heq
      simp [LibRs.decodeWaveList, h]
    · cases hx : LibRs.decodeWaveform x <;>
        simp [LibRs.decodeWaveList, hx, ih ht]

/-- Encoding then decoding `Parameters` is the identity. -/
theorem decodeParameters_encode (p : LibRs.Parameters) :
    LibRs.decodeParameters (LibRs.encodeParameters p) = some p := by
  simp [LibRs.encodeParameters, LibRs.decodeParameters, LibRs.decodeParamsFields,
    decodeUsize_natCast]

/-- Encoding then decoding `Waveform` is the identity. -/
theorem decodeWaveform_encode (w : LibRs.Waveform) :
    LibRs.decodeWaveform (LibRs.encodeWaveform w) = some w := by
  cases w <;>
    simp [LibRs.encodeWaveform, LibRs.decodeWaveform, decodeParameters_encode,
      LibRs.mkWaveform]

/-- Encoding then decoding a waveform vector is the identity. -/
theorem decodeWaveList_encode (ws : List LibRs.Waveform) :
    LibRs.decodeWaveList (ws.map LibRs.encodeWaveform) = some ws := by
  induction ws with
  | nil => rfl
  | cons w t ih =>
    simp [LibRs.decodeWaveList, decodeWaveform_encode, ih]

/-- Encoding then decoding `Project` is the identity. -/
theorem decodeProject_encode (pr : LibRs.Project) :
    LibRs.decodeProject (LibRs.encodeProject pr) = some pr := by
  simp [LibRs.encodeProject, LibRs.decodeProject, LibRs.decodeProjectFields,
    decodeUsize_natCast, decodeWaveList_encode]

/-- A sequence of documented elements deserializes as a waveform
vector. -/
theorem decodeWaveList_isSome_of_spec (xs : List Json)
    (hall : xs.all LibRs.specElemShape = true) :
    (LibRs.decodeWaveList xs).isSome = true := by
  apply decodeWaveList_isSome_of_all
  intro e he
  rw [decodeWaveform_isSome_eq]
  apply elemShapeExt_of_spec
  rw [List.all_eq_true] at hall
  exact hall e he

/-- A documented project object with `time` first deserializes. -/
theorem decodeProject_timeSeq (tv : Json) (xs : List Json)
    (ht : isNatInt tv = true) (hall : xs.all LibRs.specElemShape = true) :
    (LibRs.decodeProject
      (Json.obj [("time", tv), ("sequence", Json.arr xs)])).isSome = true := by
  obtain ⟨t, hdu⟩ := Option.isSome_iff_exists.mp
    (by rw [decodeUsize_isSome]; exact ht)
  obtain ⟨ws, hws⟩ := Option.isSome_iff_exists.mp
    (decodeWaveList_isSome_of_spec xs hall)
  simp [LibRs.decodeProject, LibRs.decodeProjectFields, hdu, hws]

/-- A documented project object with `sequence` first deserializes. -/
theorem decodeProject_seqTime (tv : Json) (xs : List Json)
    (ht : isNatInt tv = true) (hall : xs.all LibRs.specElemShape = true) :
    (LibRs.decodeProject
      (Json.obj [("sequence", Json.arr xs), ("time", tv)])).isSome = true := by
  obtain ⟨t, hdu⟩ := Option.isSome_iff_exists.mp
    (by rw [decodeUsize_isSome]; exact ht)
  obtain ⟨ws, hws⟩ := Option.isSome_iff_exists.mp
    (decodeWaveList_isSome_of_spec xs hall)
  simp [LibRs.decodeProject, LibRs.decodeProjectFields, hdu, hws]

/-- Every document of the documented wire format deserializes. -/
theorem decodeProject_of_wireFormat (j : Json)
    (h : LibRs.specWireFormat j = true) :
    (LibRs.decodeProject j).isSome = true := by
  unfold LibRs.specWireFormat at h
  split at h
  · rename_i k1 v1 k2 v2
    rw [Bool.or_eq_true] at h
    rcases h with h | h
    · simp only [Bool.and_eq_true, decide_eq_true_eq] at h
      obtain ⟨⟨⟨hk1, hk2⟩, hv1⟩, hv2⟩ := h
      subst hk1
      subst hk2
      unfold LibRs.isElemArr at hv2
      split at hv2
      · rename_i xs
        exact decodeProject_timeSeq v1 xs hv1 hv2
      · simp at hv2
    · simp only [Bool.and_eq_true, decide_eq_true_eq] at h
      obtain ⟨⟨⟨hk1, hk2⟩, hv2⟩, hv1⟩ := h
      subst hk1
      subst hk2
      unfold LibRs.isElemArr at hv1
      split at hv1
      · rename_i xs
        exact decodeProject_seqTime v2 xs hv2 hv1
      · simp at hv1
  · simp at h

/-- The `Project` field loop fails on any field list holding a
`sequence` array with an undecodable element, whatever the accumulator
state. -/
theorem decodeProjectFields_none_of_bad (xs : List Json) (e : Json)
    (he : e ∈ xs) (hd : LibRs.decodeWaveform e = none) :
    ∀ (fs : List (String × Json)) (t? : Option ℕ)
      (s? : Option (List LibRs.Waveform)),
      ("sequence", Json.arr xs) ∈ fs →
        LibRs.decodeProjectFields fs t? s? = none := by
  intro fs
  induction fs with
  | nil => intro t? s? hmem; simp at hmem
  | cons kv rest ih =>
    intro t? s? hmem
    obtain ⟨k, v⟩ := kv
    have hwl : LibRs.decodeWaveList xs = none :=
      decodeWaveList_none_of_mem xs e he hd
    rcases List.mem_cons.mp hmem with heq | hrest
    · obtain ⟨hk, hv⟩ := Prod.mk.injEq .. ▸ heq.symm
      subst hk
      subst hv
      cases s? with
      | some s => simp [LibRs.decodeProjectFields]
      | none => simp [LibRs.decodeProjectFields, hwl]
    · by_cases hk : k = "time"
      · subst hk
        cases t? with
        | some t => simp [LibRs.decodeProjectFields]
        | none =>
          cases hdu : decodeUsize v with
          | none => simp [LibRs.decodeProjectFields, hdu]
          | some t =>
            simp only [LibRs.decodeProjectFields, hdu]
            exact ih (some t) s? hrest
      · by_cases hks : k = "sequence"
        · subst hks
          cases s? with
          | some s => simp [LibRs.decodeProjectFields, hk]
          | none =>
            cases v with
            | arr ys =>
              cases hys : LibRs.decodeWaveList ys with
              | none => simp [LibRs.decodeProjectFields, hk, hys]
              | some ws =>
                simp [LibRs.decodeProjectFields, hys]
                exact ih t? (some ws) hrest
            | int n => simp [LibRs.decodeProjectFields, hk]
            | float q => simp [LibRs.decodeProjectFields, hk]
            | str s => simp [LibRs.decodeProjectFields, hk]
            | bool b => simp [LibRs.decodeProjectFields, hk]
            | null => simp [LibRs.decodeProjectFields, hk]
            | obj gs => simp [LibRs.decodeProjectFields, hk]
        · simp only [LibRs.decodeProjectFields]
          rw [if_neg hk, if_neg hks]
          exact ih t? s? hrest

/-- C8: encoding and decoding are mutually inverse on the schema: every
`Waveform` (any variant tag with any `Parameters`) decodes from its
encoding to an equal value, the embedded default project document
decodes, and re-encoding the decoded Project decodes back to the same
Project. -/
theorem waveform_project_roundtrip :
    (∀ w : LibRs.Waveform,
        LibRs.decodeWaveform (LibRs.encodeWaveform w) = some w) ∧
      LibRs.decodeProject LibRs.defaultProjectDoc = some LibRs.defaultProject ∧
      LibRs.decodeProject (LibRs.encodeProject LibRs.defaultProject) =
        some LibRs.defaultProject :=
  ⟨decodeWaveform_encode, rfl, decodeProject_encode _⟩

/-- C5 (counterexample): a document whose sequence element maps `Sine`
to a JSON ARRAY — not the documented one-key-object shape — is
nevertheless accepted by the decoder (serde_json deserializes structs
from arrays as well), contradicting the claimed rejection at this
concrete document. -/
theorem decode_accepts_array_parameters_counterexample :
    LibRs.specElemShape (Json.obj [("Sine", Json.arr [Json.int 5])]) = false ∧
      LibRs.decodeProject (Json.obj [("time", Json.int 1),
          ("sequence", Json.arr [Json.obj [("Sine", Json.arr [Json.int 5])]])]) =
        some ⟨1, [.Sine ⟨5⟩]⟩ :=
  ⟨rfl, rfl⟩

/-- C5 (amended): every document of the documented wire format decodes
successfully, and a document whose sequence array holds an element of
neither decodable shape — the documented single-key map carrying a
Parameters OBJECT, nor the serde_json variant of a Parameters ARRAY —
is rejected. -/
theorem decodeProject_wire_format :
    (∀ j, LibRs.specWireFormat j = true →
        (LibRs.decodeProject j).isSome = true) ∧
      ∀ (fs : List (String × Json)) (xs : List Json) (e : Json),
        ("sequence", Json.arr xs) ∈ fs → e ∈ xs →
          LibRs.elemShapeExt e = false →
            LibRs.decodeProject (Json.obj fs) = none := by
  refine ⟨decodeProject_of_wireFormat, ?_⟩
  intro fs xs e hmem he hbad
  have hd : LibRs.decodeWaveform e = none := by
    cases hdw : LibRs.decodeWaveform e with
    | none => rfl
    | some w =>
      have hs := decodeWaveform_isSome_eq e
      rw [hdw, hbad] at hs
      simp at hs
  exact decodeProjectFields_none_of_bad xs e he hd fs none none hmem

/-- C5 witness: a concrete documented document decodes; a concrete
document whose sequence element is a bare string is rejected. -/
theorem decodeProject_wire_format_witness :
    (LibRs.decodeProject (Json.obj [("time", Json.int 2),
        ("sequence", Json.arr [Json.obj [("Sine",
          Json.obj [("time", Json.int 1)])]])])).isSome = true ∧
      LibRs.decodeProject (Json.obj [("time", Json.int 2),
        ("sequence", Json.arr [Json.str "Sine"])]) = none :=
  ⟨decodeProject_wire_format.1 _ rfl,
   decodeProject_wire_format.2
     [("time", Json.int 2), ("sequence", Json.arr [Json.str "Sine"])]
     [Json.str "Sine"] (Json.str "Sine")
     (List.mem_cons_of_mem _ (List.mem_cons_self _ _))
     (List.mem_cons_self _ _) rfl⟩
